import Mathlib

/-
Verification of the zonal-aggregation engine of the geofarm pipeline
(src/04_zonal_stats.py, function compute_zonal_mean).

Modelling conventions:
- A floating-point pixel value is `Option ℚ`: `some q` is a finite value
  (the exact rational value of the float), `none` is a non-finite value
  (NaN or an infinity).  Arithmetic on valid pixels is exact rational
  arithmetic; the one precision-relevant conversion the code performs,
  astype("float32") on line 52, is modelled faithfully by IEEE-754
  round-to-nearest-even single-precision rounding (`roundF32`).
- The raster library's clip operation (rasterio.mask.mask, line 51) and the
  vector library's reprojection (geopandas to_crs, line 42) are external
  collaborators: they appear as function-valued parameters, a raised
  exception being `Except.error`.
- Missing input paths are `none` arguments; the fatal errors raised on
  lines 24-27 and 37 become the `Except.error` constructors of `ZonalErr`.
- Logging (get_logger, log.info, log.warning) is a side effect with no
  bearing on the returned table and is not modelled.
-/

namespace GeoFarm

/-- A pixel value of a floating-point raster: `some q` is a finite value,
`none` is a non-finite one (NaN or an infinity). -/
abbrev Px := Option ℚ

/-- Greatest `k` with `2 ^ k ≤ n` when `1 ≤ n` (else 0); fuel-based so the
kernel can evaluate it on literals. -/
def log2floorAux : Nat → Nat → Nat
  | 0, _ => 0
  | fuel + 1, n => if 2 ≤ n then log2floorAux fuel (n / 2) + 1 else 0

/-- Greatest `k` with `2 ^ k ≤ n` (0 when `n = 0`). -/
def log2floor (n : Nat) : Nat := log2floorAux n n

/-- For `0 < q`, the integer `e` with `2 ^ e ≤ q < 2 ^ (e + 1)`. -/
def floorLog2 (q : ℚ) : Int :=
  let c : Int := (log2floor q.num.toNat : Int) - (log2floor q.den : Int)
  if (2 : ℚ) ^ c ≤ q then c else c - 1

/-- Round a rational to the nearest integer, ties to even (the IEEE-754
default rounding direction). -/
def roundHalfEven (q : ℚ) : Int :=
  let f := ⌊q⌋
  if q - f < 1 / 2 then f
  else if 1 / 2 < q - f then f + 1
  else if f % 2 = 0 then f else f + 1

/-- Conversion of a finite double value to single precision, as performed by
astype("float32") on line 52 of 04_zonal_stats.py: round to the nearest
binary32 value (ties to even); `none` means overflow to an infinity.  The
subnormal grid `2 ^ (-149)` and the overflow threshold `2 ^ 128` follow
IEEE-754 binary32. -/
def roundF32 (q : ℚ) : Option ℚ :=
  if q = 0 then some 0
  else
    let e := floorLog2 |q|
    let uexp : Int := max (e - 23) (-149)
    let u : ℚ := (2 : ℚ) ^ uexp
    let r : ℚ := (roundHalfEven (q / u) : ℚ) * u
    if (2 : ℚ) ^ (128 : ℕ) ≤ |r| then none else some r

/-- astype("float32") on one pixel (line 52): a non-finite value stays
non-finite, a finite value is rounded to single precision and may overflow
to an infinity. -/
def astypeF32 (p : Px) : Px := p.bind roundF32

/-- Lines 53-54: `arr[arr == nodata] = np.nan` — every pixel equal to the
declared nodata sentinel becomes NaN.  The sentinel is a finite float (a
non-finite sentinel compares unequal to every value under IEEE equality and
so acts as if absent); with no declared sentinel the array is untouched. -/
def setNodataNaN (nodata : Option ℚ) (arr : List Px) : List Px :=
  match nodata with
  | none => arr
  | some nd => arr.map fun p => if p = some nd then none else p

/-- Line 55: `valid = arr[np.isfinite(arr)]` — the finite values, in order. -/
def finiteVals (arr : List Px) : List ℚ := arr.filterMap id

/-- The valid pixel values of one zone (lines 52-55): convert the clipped
window to float32, blank out the nodata sentinel, keep the finite values. -/
def validPixels (nodata : Option ℚ) (ps : List Px) : List ℚ :=
  finiteVals (setNodataNaN nodata (ps.map astypeF32))

/-- One row of per-zone statistics (the ndvi_mean/ndvi_min/ndvi_max/
ndvi_count columns); `none` encodes NaN. -/
structure Stats where
  mean : Option ℚ
  min : Option ℚ
  max : Option ℚ
  count : Nat
  deriving DecidableEq

/-- The zero-coverage outcome appended on lines 57 and 65:
(NaN, NaN, NaN, 0). -/
def zeroRow : Stats := ⟨none, none, none, 0⟩

/-- Arithmetic mean of a list of rationals (`valid.mean()` on line 59). -/
def listMean (l : List ℚ) : ℚ := l.sum / l.length

/-- Lines 56-62: the statistics over the valid pixel list — the
zero-coverage row when it is empty, otherwise exact mean, minimum, maximum
and the number of valid pixels. -/
def statsOf (valid : List ℚ) : Stats :=
  match valid with
  | [] => zeroRow
  | q :: qs =>
    { mean := some (listMean (q :: qs))
      min := some (qs.foldl Min.min q)
      max := some (qs.foldl Max.max q)
      count := (q :: qs).length }

/-- Body of the per-zone loop (lines 50-65): the clip result (a raised
exception encoded as `.error`) becomes one statistics row; any per-zone
failure is downgraded to the zero-coverage row (lines 63-65), never
propagated. -/
def processZone (nodata : Option ℚ) (res : Except String (List Px)) : Stats :=
  match res with
  | .error _ => zeroRow
  | .ok ps => statsOf (validPixels nodata ps)

/-- An attribute value in a zone-table column (only the shapes the
development needs: strings and integers). -/
inductive PyVal where
  | str : String → PyVal
  | int : Int → PyVal
  deriving DecidableEq

/-- Whether an attribute value is a string. -/
def PyVal.isStr : PyVal → Bool
  | .str _ => true
  | .int _ => false

/-- A raster dataset as the zonal code uses it: the CRS and nodata metadata
read on lines 30-32, and the clip operation
`mask(src, [mapping(geom)], crop=True)` of line 51, giving the array the
code receives (`out_img[0]`), or raising.  With the library's default
`filled=True` this is the polygon's whole crop window: positions outside
the geometric footprint are filled with the raster's nodata value, or with
0.0 when no nodata is declared (`fillWindow` below models that fill step).
`C` is the type of coordinate reference systems, `G` of geometries. -/
structure Raster (C G : Type) where
  crs : C
  nodata : Option ℚ
  mask : G → Except String (List Px)

/-- The zone source as read by geopandas on line 35: its optional declared
CRS, the optional "id" attribute column, and the ordered feature
geometries.  (When the "id" column is present it has one value per feature;
theorems needing that table invariant take it as a hypothesis.) -/
structure ZoneSet (C G : Type) where
  crs : Option C
  idCol : Option (List PyVal)
  geoms : List G

/-- The fatal errors of compute_zonal_mean: the two FileNotFoundError
raises on lines 24-27 and the ValueError on line 37. -/
inductive ZonalErr where
  | rasterNotFound
  | vectorNotFound
  | noFeatures
  deriving DecidableEq

/-- The returned GeoDataFrame, column-wise: its CRS, the "id" column, the
geometry column, and the four statistics columns appended on lines 72-75. -/
structure OutTable (C G : Type) where
  crs : C
  ids : List PyVal
  geoms : List G
  means : List (Option ℚ)
  mins : List (Option ℚ)
  maxs : List (Option ℚ)
  counts : List Nat

/-- compute_zonal_mean(raster_path, vector_path), lines 21-76.
`raster?` / `vector?` are `none` exactly when the corresponding path does
not exist; `wgs84` is the CRS "EPSG:4326" assumed on lines 38-39 when the
zone source declares none; `reproj src dst g` is geopandas to_crs applied
to one geometry (line 42).  The raised fatal errors become `.error`. -/
def compute_zonal_mean {C G : Type} (wgs84 : C) (reproj : C → C → G → G)
    (raster? : Option (Raster C G)) (vector? : Option (ZoneSet C G)) :
    Except ZonalErr (OutTable C G) :=
  match raster? with
  | none => .error .rasterNotFound
  | some src =>
    match vector? with
    | none => .error .vectorNotFound
    | some gdf =>
      if gdf.geoms.isEmpty then .error .noFeatures
      else
        let srcCrs := gdf.crs.getD wgs84
        let geoms' := gdf.geoms.map (reproj srcCrs src.crs)
        let stats := geoms'.map fun g => processZone src.nodata (src.mask g)
        let ids :=
          match gdf.idCol with
          | some col => col
          | none => (List.range gdf.geoms.length).map fun i => PyVal.str (toString i)
        .ok { crs := src.crs, ids := ids, geoms := geoms',
              means := stats.map Stats.mean, mins := stats.map Stats.min,
              maxs := stats.map Stats.max, counts := stats.map Stats.count }

/-- The spec's validity predicate (§4.1 numeric semantics): a pixel is valid
iff it is finite and not equal to the declared nodata sentinel.  Stated on
the single-precision pixel values the loop works on. -/
def isValidPx (nodata : Option ℚ) (p : Px) : Bool :=
  match p with
  | none => false
  | some v =>
    match nodata with
    | none => true
    | some nd => decide (v ≠ nd)

/-- Per-zone statistics computed in the raster's native precision: stated
after the spec's words "mean/min/max are computed in the raster's native
floating-point precision", for comparison with `processZone`, which first
narrows every pixel to float32. -/
def processZoneNative (nodata : Option ℚ) (res : Except String (List Px)) : Stats :=
  match res with
  | .error _ => zeroRow
  | .ok ps => statsOf (finiteVals (setNodataNaN nodata ps))

/-- The valid pixels described by the spec: the values of the pixels that
pass `isValidPx`, in order. -/
def validPerSpec (nodata : Option ℚ) (ps : List Px) : List ℚ :=
  (ps.filter (isValidPx nodata)).filterMap id

/-- The statistics column built by the loop (the `stats` of the run lemma):
one `Stats` row per reprojected geometry, in order. -/
def statsCol {C G : Type} (r : Raster C G) (geoms' : List G) : List Stats :=
  geoms'.map fun g => processZone r.nodata (r.mask g)

/-- The identifiers synthesized on lines 69-70 when the zone table has no
"id" column: the stringified zero-based positions. -/
def synthIds (n : Nat) : List PyVal :=
  (List.range n).map fun i => PyVal.str (toString i)

/-- One position of the crop window the clip operation computes before
filling: either a pixel geometrically covered by the polygon, with its
value, or a window position outside the polygon's footprint. -/
inductive WinPx where
  | covered : Px → WinPx
  | uncovered : WinPx
  deriving DecidableEq

/-- The fill step of the raster library's clip with its default
`filled=True`: the crop window is returned whole, every position outside
the geometric footprint filled with the raster's declared nodata value, or
with 0.0 when none is declared.  Modelled from the raster library's
documented masking behavior, on which the spec declares a design
dependency. -/
def fillWindow (nodata : Option ℚ) (w : List WinPx) : List Px :=
  w.map fun p =>
    match p with
    | .covered v => v
    | .uncovered =>
      match nodata with
      | some nd => some nd
      | none => some 0

/-- The pixels of a crop window geometrically covered by the polygon, in
order. -/
def coveredPx (w : List WinPx) : List Px :=
  w.filterMap fun p =>
    match p with
    | .covered v => some v
    | .uncovered => none

/-- The number of crop-window positions outside the polygon's footprint. -/
def countUncovered (w : List WinPx) : Nat :=
  (w.filter fun p =>
    match p with
    | .uncovered => true
    | .covered _ => false).length

/-- A binary64 pixel value that lies strictly between two binary32 grid
points: `1 + 2 ^ (-30)`. -/
def pxFine : ℚ := 1 + (2 : ℚ) ^ (-30 : Int)

/-
Concrete fixtures used by witnesses and counterexamples.  The geometry type
is instantiated with `List Px`: a geometry "is" the window of pixels the
clip operation returns for it, and reprojection leaves it unchanged.
-/

/-- The CRS assumed for a zone source with no declared CRS (line 39). -/
def epsg4326 : String := "EPSG:4326"

/-- A projected CRS used as the raster grid's CRS in concrete runs. -/
def utm33 : String := "EPSG:32633"

/-- Reprojection of the witness world: identity on windows. -/
def idReproj : String → String → List Px → List Px := fun _ _ g => g

/-- A clip operation that succeeds on every geometry. -/
def okMask : List Px → Except String (List Px) := fun g => .ok g

/-- A clip operation that rejects the degenerate (empty-window) geometry,
as rasterio's mask raises on an invalid polygon. -/
def failEmptyMask : List Px → Except String (List Px) := fun g =>
  match g with
  | [] => .error "Invalid geometry"
  | ps => .ok ps

/-- The spec's 4x4 example raster: value 1.0 everywhere except
nodata = -9999 in the top row. -/
def raster4 : Raster String (List Px) := ⟨utm33, some (-9999), okMask⟩

/-- A raster with no declared nodata sentinel. -/
def rasterNoNd : Raster String (List Px) := ⟨utm33, none, okMask⟩

/-- A raster whose clip rejects degenerate geometries. -/
def rasterFail : Raster String (List Px) := ⟨utm33, none, failEmptyMask⟩

/-- A raster of native double precision: its single pixel value
`1 + 2 ^ (-30)` is exactly representable in binary64 but not in binary32. -/
def rasterFine : Raster String (List Px) :=
  ⟨utm33, none, fun _ => .ok [some pxFine]⟩

/-- Zone A of the spec's 4x4 example: the top row, all nodata. -/
def zoneATop : List Px := [some (-9999), some (-9999), some (-9999), some (-9999)]

/-- Zone B of the spec's 4x4 example: the bottom three rows, twelve pixels
of value 1.0. -/
def zoneBBot : List Px :=
  [some 1, some 1, some 1, some 1, some 1, some 1,
   some 1, some 1, some 1, some 1, some 1, some 1]

/-- The spec's 4x4 example zone set (no "id" column). -/
def zonesAB : ZoneSet String (List Px) := ⟨some utm33, none, [zoneATop, zoneBBot]⟩

/-- A two-zone set with plain windows. -/
def zonesPair : ZoneSet String (List Px) := ⟨some utm33, none, [[some 1], [some 2]]⟩

/-- A two-zone set whose first geometry is degenerate (rejected by
`failEmptyMask`) and whose second is ordinary. -/
def zonesF : ZoneSet String (List Px) := ⟨some utm33, none, [[], [some 1, some 2]]⟩

/-- A zone source with zero features. -/
def zonesEmpty : ZoneSet String (List Px) := ⟨some utm33, none, []⟩

/-- A zone set that supplies its own "id" column with a non-string value. -/
def zonesIntId : ZoneSet String (List Px) := ⟨some utm33, some [PyVal.int 7], [[some 1]]⟩

/-- A zone set that declares no CRS. -/
def zonesNoCrs : ZoneSet String (List Px) := ⟨none, none, [[some 1]]⟩

/-- A single-zone set paired with `rasterFine` (the clip there ignores the
geometry). -/
def zonesFine : ZoneSet String (List Px) := ⟨some utm33, none, [[some 0]]⟩

/-- A crop window in which the polygon covers exactly one pixel (value 1.0)
and three window positions lie outside the footprint. -/
def winPart : List WinPx := [.covered (some 1), .uncovered, .uncovered, .uncovered]

/-- A raster with no declared nodata whose clip delivers `winPart` after
the library's fill step: the three uncovered positions become 0.0. -/
def rasterFillNoNd : Raster String (List Px) :=
  ⟨utm33, none, fun _ => .ok (fillWindow none winPart)⟩

/-- A raster with nodata -9999 whose clip delivers `winPart` after the fill
step: the three uncovered positions become -9999. -/
def rasterFillNd : Raster String (List Px) :=
  ⟨utm33, some (-9999), fun _ => .ok (fillWindow (some (-9999)) winPart)⟩

/-- A single-zone set paired with the fill rasters (their clips ignore the
geometry). -/
def zonesOneCov : ZoneSet String (List Px) := ⟨some utm33, none, [[some 1]]⟩

/-- Run lemma: on a present raster and a present, non-empty zone source,
compute_zonal_mean returns the table whose columns are given explicitly. -/
lemma compute_zonal_mean_ok {C G : Type} (wgs84 : C) (reproj : C → C → G → G)
    (r : Raster C G) (zs : ZoneSet C G) (h : zs.geoms ≠ []) :
    compute_zonal_mean wgs84 reproj (some r) (some zs) =
      .ok { crs := r.crs
            ids := zs.idCol.getD (synthIds zs.geoms.length)
            geoms := zs.geoms.map (reproj (zs.crs.getD wgs84) r.crs)
            means := (statsCol r (zs.geoms.map (reproj (zs.crs.getD wgs84) r.crs))).map Stats.mean
            mins := (statsCol r (zs.geoms.map (reproj (zs.crs.getD wgs84) r.crs))).map Stats.min
            maxs := (statsCol r (zs.geoms.map (reproj (zs.crs.getD wgs84) r.crs))).map Stats.max
            counts := (statsCol r (zs.geoms.map (reproj (zs.crs.getD wgs84) r.crs))).map Stats.count } := by
  have hne : zs.geoms.isEmpty = false := by
    cases hg : zs.geoms with
    | nil => exact absurd hg h
    | cons a l => rfl
  cases hic : zs.idCol with
  | none => simp [compute_zonal_mean, hne, hic, statsCol, synthIds, Option.getD]
  | some col => simp [compute_zonal_mean, hne, hic, statsCol, Option.getD]

lemma statsCol_length {C G : Type} (r : Raster C G) (geoms' : List G) :
    (statsCol r geoms').length = geoms'.length := by
  simp [statsCol]

lemma statsCol_getElem? {C G : Type} (r : Raster C G) (geoms' : List G) (i : Nat) :
    (statsCol r geoms')[i]? = (geoms'[i]?).map fun g => processZone r.nodata (r.mask g) := by
  simp [statsCol, List.getElem?_map]

lemma synthIds_length (n : Nat) : (synthIds n).length = n := by
  simp [synthIds]

lemma synthIds_all_str (n : Nat) : (synthIds n).all PyVal.isStr = true := by
  simp only [synthIds, List.all_eq_true]
  intro x hx
  rcases List.mem_map.mp hx with ⟨i, _, rfl⟩
  rfl

lemma synthIds_getElem? (n i : Nat) (h : i < n) :
    (synthIds n)[i]? = some (PyVal.str (toString i)) := by
  simp [synthIds, List.getElem?_map, List.getElem?_range h]

/-- Blanking the sentinel and keeping the finite values computes exactly the
spec's validity filter: finite and not equal to the declared sentinel. -/
lemma finiteVals_setNodataNaN_eq_validPerSpec (nodata : Option ℚ) (arr : List Px) :
    finiteVals (setNodataNaN nodata arr) = validPerSpec nodata arr := by
  induction arr with
  | nil => cases nodata <;> rfl
  | cons p t ih =>
    cases nodata with
    | none =>
      cases p with
      | none => simpa [finiteVals, setNodataNaN, validPerSpec, isValidPx] using ih
      | some v => simpa [finiteVals, setNodataNaN, validPerSpec, isValidPx] using ih
    | some nd =>
      cases p with
      | none => simpa [finiteVals, setNodataNaN, validPerSpec, isValidPx] using ih
      | some v =>
        by_cases hv : v = nd
        · subst hv
          simpa [finiteVals, setNodataNaN, validPerSpec, isValidPx] using ih
        · simpa [finiteVals, setNodataNaN, validPerSpec, isValidPx, hv] using ih

/-- The code's valid pixel list is the spec's validity filter applied to the
single-precision (astype-converted) window. -/
lemma validPixels_eq_validPerSpec (nodata : Option ℚ) (ps : List Px) :
    validPixels nodata ps = validPerSpec nodata (ps.map astypeF32) :=
  finiteVals_setNodataNaN_eq_validPerSpec nodata (ps.map astypeF32)

/-- When every pixel of the window is already a single-precision value (as
for the pipeline's float32 rasters), the code's valid pixel list is the
spec's validity filter on the window itself. -/
lemma validPixels_eq_validPerSpec_of_exact (nodata : Option ℚ) (ps : List Px)
    (hrep : ∀ p ∈ ps, astypeF32 p = p) :
    validPixels nodata ps = validPerSpec nodata ps := by
  rw [validPixels_eq_validPerSpec]
  congr 1
  calc ps.map astypeF32 = ps.map id := List.map_congr_left hrep
    _ = ps := List.map_id ps

lemma validPixels_length_le (nodata : Option ℚ) (ps : List Px) :
    (validPixels nodata ps).length ≤ ps.length := by
  have h1 : (validPixels nodata ps).length ≤ (setNodataNaN nodata (ps.map astypeF32)).length :=
    List.length_filterMap_le _ _
  have h2 : (setNodataNaN nodata (ps.map astypeF32)).length = ps.length := by
    cases nodata <;> simp [setNodataNaN]
  omega

/-- Every valid value originates in the clipped window: the statistics never
draw on a pixel the clip operation did not deliver. -/
lemma validPixels_sub_window (nodata : Option ℚ) (ps : List Px) :
    ∀ v ∈ validPixels nodata ps, ∃ p ∈ ps, astypeF32 p = some v := by
  intro v hv
  have h1 : some v ∈ setNodataNaN nodata (ps.map astypeF32) := by
    rcases List.mem_filterMap.mp hv with ⟨a, ha, hav⟩
    cases a with
    | none => cases hav
    | some w => cases hav; exact ha
  have h2 : some v ∈ ps.map astypeF32 := by
    cases nodata with
    | none => exact h1
    | some nd =>
      rcases List.mem_map.mp h1 with ⟨p, hp, hpv⟩
      by_cases hnd : p = some nd
      · simp [hnd] at hpv
      · rw [if_neg hnd] at hpv
        exact hpv ▸ hp
  rcases List.mem_map.mp h2 with ⟨p, hp, hpv⟩
  exact ⟨p, hp, hpv⟩

lemma statsOf_count ( l : List ℚ) : (statsOf l).count = l.length := by
  cases l <;> rfl

lemma statsOf_mean_none_iff ( l : List ℚ) : (statsOf l).mean = none ↔ l = [] := by
  cases l <;> simp [statsOf, zeroRow]

lemma statsOf_min_none_iff ( l : List ℚ) : (statsOf l).min = none ↔ l = [] := by
  cases l <;> simp [statsOf, zeroRow]

lemma statsOf_max_none_iff ( l : List ℚ) : (statsOf l).max = none ↔ l = [] := by
  cases l <;> simp [statsOf, zeroRow]

lemma processZone_error (nodata : Option ℚ) (msg : String) :
    processZone nodata (.error msg) = zeroRow := rfl

lemma processZone_ok (nodata : Option ℚ) (ps : List Px) :
    processZone nodata (.ok ps) = statsOf (validPixels nodata ps) := rfl

lemma processZone_count_le (nodata : Option ℚ) (ps : List Px) :
    (processZone nodata (.ok ps)).count ≤ ps.length := by
  rw [processZone_ok, statsOf_count]
  exact validPixels_length_le nodata ps

lemma foldl_min_le_init (qs : List ℚ) (q : ℚ) : qs.foldl Min.min q ≤ q := by
  induction qs generalizing q with
  | nil => exact le_refl q
  | cons a t ih => exact le_trans (ih (Min.min q a)) (min_le_left q a)

lemma foldl_min_le_mem (qs : List ℚ) (q : ℚ) : ∀ x ∈ qs, qs.foldl Min.min q ≤ x := by
  induction qs generalizing q with
  | nil => intro x hx; cases hx
  | cons a t ih =>
    intro x hx
    rcases List.mem_cons.mp hx with rfl | hx
    · exact le_trans (foldl_min_le_init t (Min.min q x)) (min_le_right q x)
    · exact ih (Min.min q a) x hx

lemma init_le_foldl_max (qs : List ℚ) (q : ℚ) : q ≤ qs.foldl Max.max q := by
  induction qs generalizing q with
  | nil => exact le_refl q
  | cons a t ih => exact le_trans (le_max_left q a) (ih (Max.max q a))

lemma mem_le_foldl_max (qs : List ℚ) (q : ℚ) : ∀ x ∈ qs, x ≤ qs.foldl Max.max q := by
  induction qs generalizing q with
  | nil => intro x hx; cases hx
  | cons a t ih =>
    intro x hx
    rcases List.mem_cons.mp hx with rfl | hx
    · exact le_trans (le_max_right q x) (init_le_foldl_max t (Max.max q x))
    · exact ih (Max.max q a) x hx

lemma length_mul_le_sum (l : List ℚ) (m : ℚ) (h : ∀ x ∈ l, m ≤ x) :
    (l.length : ℚ) * m ≤ l.sum := by
  induction l with
  | nil => simp
  | cons a t ih =>
    have ha : m ≤ a := h a (List.mem_cons_self a t)
    have ht : (t.length : ℚ) * m ≤ t.sum := ih fun x hx => h x (List.mem_cons_of_mem a hx)
    simp only [List.length_cons, List.sum_cons]
    push_cast
    linarith [ht, ha]

lemma sum_le_length_mul (l : List ℚ) (m : ℚ) (h : ∀ x ∈ l, x ≤ m) :
    l.sum ≤ (l.length : ℚ) * m := by
  induction l with
  | nil => simp
  | cons a t ih =>
    have ha : a ≤ m := h a (List.mem_cons_self a t)
    have ht : t.sum ≤ (t.length : ℚ) * m := ih fun x hx => h x (List.mem_cons_of_mem a hx)
    simp only [List.length_cons, List.sum_cons]
    push_cast
    linarith [ht, ha]

lemma min_le_listMean (q : ℚ) (qs : List ℚ) :
    qs.foldl Min.min q ≤ listMean (q :: qs) := by
  have hlen : (0 : ℚ) < ((q :: qs).length : ℚ) := by
    simp only [List.length_cons]
    push_cast
    positivity
  have hbound : ((q :: qs).length : ℚ) * (qs.foldl Min.min q) ≤ (q :: qs).sum :=
    length_mul_le_sum (q :: qs) (qs.foldl Min.min q) (by
      intro x hx
      rcases List.mem_cons.mp hx with rfl | hx
      · exact foldl_min_le_init qs x
      · exact foldl_min_le_mem qs q x hx)
  rw [listMean, le_div_iff₀ hlen]
  linarith [hbound]

lemma listMean_le_max (q : ℚ) (qs : List ℚ) :
    listMean (q :: qs) ≤ qs.foldl Max.max q := by
  have hlen : (0 : ℚ) < ((q :: qs).length : ℚ) := by
    simp only [List.length_cons]
    push_cast
    positivity
  have hbound : (q :: qs).sum ≤ ((q :: qs).length : ℚ) * (qs.foldl Max.max q) :=
    sum_le_length_mul (q :: qs) (qs.foldl Max.max q) (by
      intro x hx
      rcases List.mem_cons.mp hx with rfl | hx
      · exact init_le_foldl_max qs x
      · exact mem_le_foldl_max qs q x hx)
  rw [listMean, div_le_iff₀ hlen]
  linarith [hbound]

/-- For a row with at least one valid pixel, the three statistics are
ordered: minimum ≤ mean ≤ maximum. -/
lemma statsOf_min_le_mean_le_max ( l : List ℚ) (mu mn mx : ℚ)
    (hmu : (statsOf l).mean = some mu) (hmn : (statsOf l).min = some mn)
    (hmx : (statsOf l).max = some mx) : mn ≤ mu ∧ mu ≤ mx := by
  cases l with
  | nil => cases hmu
  | cons q qs =>
    simp only [statsOf, Option.some.injEq] at hmu hmn hmx
    subst hmu; subst hmn; subst hmx
    exact ⟨min_le_listMean q qs, listMean_le_max q qs⟩

lemma log2floorAux_correct : ∀ (fuel n : Nat), 1 ≤ n → n ≤ fuel →
    2 ^ log2floorAux fuel n ≤ n ∧ n < 2 ^ (log2floorAux fuel n + 1) := by
  intro fuel
  induction fuel with
  | zero => intro n h1 h2; omega
  | succ fuel ih =>
    intro n h1 h2
    by_cases h : 2 ≤ n
    · have hrec := ih (n / 2) (by omega) (by omega)
      simp only [log2floorAux, if_pos h]
      set k := log2floorAux fuel (n / 2) with hk
      have e1 : 2 ^ (k + 1) = 2 * 2 ^ k := by ring
      have e2 : 2 ^ (k + 1 + 1) = 2 * 2 ^ (k + 1) := by ring
      omega
    · simp only [log2floorAux, if_neg h]
      norm_num
      omega

lemma log2floor_correct (n : Nat) (h : 1 ≤ n) :
    2 ^ log2floor n ≤ n ∧ n < 2 ^ (log2floor n + 1) :=
  log2floorAux_correct n n h (le_refl n)

/-- `floorLog2` brackets a positive rational between consecutive powers
of two. -/
lemma floorLog2_correct (q : ℚ) (hq : 0 < q) :
    (2 : ℚ) ^ floorLog2 q ≤ q ∧ q < (2 : ℚ) ^ (floorLog2 q + 1) := by
  have hnum : 0 < q.num := Rat.num_pos.mpr hq
  have hn1 : 1 ≤ q.num.toNat := by omega
  have hd0 : 0 < q.den := q.den_pos
  obtain ⟨hnl, hnu⟩ := log2floor_correct q.num.toNat hn1
  obtain ⟨hdl, hdu⟩ := log2floor_correct q.den (by omega)
  have hNpos : (0 : ℚ) < (q.num : ℚ) := by exact_mod_cast hnum
  have hDpos : (0 : ℚ) < (q.den : ℚ) := by exact_mod_cast hd0
  have hncast : ((q.num.toNat : ℚ)) = (q.num : ℚ) := by
    have h1 : ((q.num.toNat : ℤ) : ℚ) = (q.num : ℚ) := by
      rw [Int.toNat_of_nonneg (le_of_lt hnum)]
    push_cast at h1 ⊢
    exact h1
  have hA1 : (2 : ℚ) ^ ((log2floor q.num.toNat : Int)) ≤ (q.num : ℚ) := by
    rw [zpow_natCast, ← hncast]
    exact_mod_cast hnl
  have hA2 : (q.num : ℚ) < (2 : ℚ) ^ ((log2floor q.num.toNat : Int) + 1) := by
    have : ((log2floor q.num.toNat : Int) + 1) = ((log2floor q.num.toNat + 1 : Nat) : Int) := by
      push_cast; ring
    rw [this, zpow_natCast, ← hncast]
    exact_mod_cast hnu
  have hB1 : (2 : ℚ) ^ ((log2floor q.den : Int)) ≤ (q.den : ℚ) := by
    rw [zpow_natCast]
    exact_mod_cast hdl
  have hB2 : (q.den : ℚ) < (2 : ℚ) ^ ((log2floor q.den : Int) + 1) := by
    have : ((log2floor q.den : Int) + 1) = ((log2floor q.den + 1 : Nat) : Int) := by
      push_cast; ring
    rw [this, zpow_natCast]
    exact_mod_cast hdu
  have hq_eq : q = (q.num : ℚ) / (q.den : ℚ) := (Rat.num_div_den q).symm
  set c0 : Int := (log2floor q.num.toNat : Int) - (log2floor q.den : Int) with hc0
  have hup : q < (2 : ℚ) ^ (c0 + 1) := by
    rw [hq_eq, div_lt_iff₀ hDpos]
    calc (q.num : ℚ) < (2 : ℚ) ^ ((log2floor q.num.toNat : Int) + 1) := hA2
      _ = (2 : ℚ) ^ (c0 + 1) * (2 : ℚ) ^ ((log2floor q.den : Int)) := by
          rw [← zpow_add₀ (two_ne_zero)]
          congr 1
          omega
      _ ≤ (2 : ℚ) ^ (c0 + 1) * (q.den : ℚ) :=
          mul_le_mul_of_nonneg_left hB1 (le_of_lt (zpow_pos two_pos _))
  have hlow : (2 : ℚ) ^ (c0 - 1) < q := by
    rw [hq_eq, lt_div_iff₀ hDpos]
    calc (2 : ℚ) ^ (c0 - 1) * (q.den : ℚ)
        < (2 : ℚ) ^ (c0 - 1) * (2 : ℚ) ^ ((log2floor q.den : Int) + 1) :=
          mul_lt_mul_of_pos_left hB2 (zpow_pos two_pos _)
      _ = (2 : ℚ) ^ ((log2floor q.num.toNat : Int)) := by
          rw [← zpow_add₀ (two_ne_zero)]
          congr 1
          omega
      _ ≤ (q.num : ℚ) := hA1
  have hfl : floorLog2 q = if (2 : ℚ) ^ c0 ≤ q then c0 else c0 - 1 := rfl
  rw [hfl]
  by_cases hc : (2 : ℚ) ^ c0 ≤ q
  · rw [if_pos hc]
    exact ⟨hc, hup⟩
  · rw [if_neg hc]
    constructor
    · exact le_of_lt hlow
    · rw [Int.sub_add_cancel]
      exact not_le.mp hc

/-- Evaluation rule for `floorLog2`: bracketing determines the value. -/
lemma floorLog2_eq (q : ℚ) (e : Int) (h1 : (2 : ℚ) ^ e ≤ q)
    (h2 : q < (2 : ℚ) ^ (e + 1)) : floorLog2 q = e := by
  have hqpos : 0 < q := lt_of_lt_of_le (zpow_pos two_pos e) h1
  obtain ⟨hl, hu⟩ := floorLog2_correct q hqpos
  rcases lt_trichotomy (floorLog2 q) e with h | h | h
  · exfalso
    have hle : (2 : ℚ) ^ (floorLog2 q + 1) ≤ (2 : ℚ) ^ e :=
      zpow_le_zpow_right₀ (by norm_num) (by omega)
    linarith
  · exact h
  · exfalso
    have hle : (2 : ℚ) ^ (e + 1) ≤ (2 : ℚ) ^ (floorLog2 q) :=
      zpow_le_zpow_right₀ (by norm_num) (by omega)
    linarith

lemma roundHalfEven_intCast (m : Int) : roundHalfEven (m : ℚ) = m := by
  simp only [roundHalfEven, Int.floor_intCast, sub_self]
  norm_num

/-- A value already on the binary32 grid of its binade is left unchanged by
the float32 conversion. -/
lemma roundF32_grid (q : ℚ) (hq : q ≠ 0) (e m : Int)
    (he : floorLog2 |q| = e)
    (hm : q = (m : ℚ) * (2 : ℚ) ^ (max (e - 23) (-149) : Int))
    (hb : |q| < (2 : ℚ) ^ (128 : ℕ)) :
    roundF32 q = some q := by
  have h2 : ((2 : ℚ) ^ (max (e - 23) (-149) : Int)) ≠ 0 := zpow_ne_zero _ (by norm_num)
  have hdiv : q / (2 : ℚ) ^ (max (e - 23) (-149) : Int) = (m : ℚ) := by
    rw [hm]; field_simp
  unfold roundF32
  rw [if_neg hq]
  simp only [he]
  rw [hdiv, roundHalfEven_intCast, ← hm]
  rw [if_neg (not_le.mpr hb)]

lemma roundF32_one : roundF32 (1 : ℚ) = some 1 := by
  apply roundF32_grid 1 (by norm_num) 0 (2 ^ 23)
  · rw [abs_one]
    exact floorLog2_eq 1 0 (by norm_num) (by norm_num)
  · have hmax : (max ((0 : Int) - 23) (-149)) = -23 := by decide
    rw [hmax]
    push_cast
    rw [zpow_neg]
    norm_num
  · rw [abs_one]; norm_num

lemma roundF32_two : roundF32 (2 : ℚ) = some 2 := by
  apply roundF32_grid 2 (by norm_num) 1 (2 ^ 23)
  · have : |(2 : ℚ)| = 2 := by norm_num
    rw [this]
    exact floorLog2_eq 2 1 (by norm_num) (by norm_num)
  · have hmax : (max ((1 : Int) - 23) (-149)) = -22 := by decide
    rw [hmax]
    push_cast
    rw [zpow_neg]
    norm_num
  · have : |(2 : ℚ)| = 2 := by norm_num
    rw [this]; norm_num

lemma roundF32_neg9999 : roundF32 (-9999 : ℚ) = some (-9999) := by
  apply roundF32_grid (-9999) (by norm_num) 13 (-10238976)
  · have : |(-9999 : ℚ)| = 9999 := by norm_num
    rw [this]
    exact floorLog2_eq 9999 13 (by norm_num) (by norm_num)
  · have hmax : (max ((13 : Int) - 23) (-149)) = -10 := by decide
    rw [hmax]
    push_cast
    rw [zpow_neg]
    norm_num
  · have : |(-9999 : ℚ)| = 9999 := by norm_num
    rw [this]; norm_num

/-- A double value strictly between two binary32 grid points is moved by the
conversion: `1 + 2 ^ (-30)` (exactly representable in binary64) rounds to
`1` in binary32. -/
lemma roundF32_one_add_small : roundF32 pxFine = some 1 := by
  show roundF32 (1 + (2 : ℚ) ^ (-30 : Int)) = some 1
  have hq : (1 + (2 : ℚ) ^ (-30 : Int)) ≠ 0 := by positivity
  have habs : |1 + (2 : ℚ) ^ (-30 : Int)| = 1 + (2 : ℚ) ^ (-30 : Int) :=
    abs_of_pos (by positivity)
  have he : floorLog2 |1 + (2 : ℚ) ^ (-30 : Int)| = 0 := by
    rw [habs]
    apply floorLog2_eq
    · norm_num
    · norm_num
  unfold roundF32
  rw [if_neg hq]
  simp only [he]
  have hmax : (max ((0 : Int) - 23) (-149)) = -23 := by decide
  rw [hmax]
  have hdiv : (1 + (2 : ℚ) ^ (-30 : Int)) / (2 : ℚ) ^ (-23 : Int) =
      2 ^ 23 + (2 : ℚ) ^ (-7 : Int) := by
    norm_num
  rw [hdiv]
  have hf : ⌊(2 : ℚ) ^ 23 + (2 : ℚ) ^ (-7 : Int)⌋ = 2 ^ 23 := by norm_num
  have hrhe : roundHalfEven ((2 : ℚ) ^ 23 + (2 : ℚ) ^ (-7 : Int)) = 2 ^ 23 := by
    simp only [roundHalfEven, hf]
    norm_num
  rw [hrhe]
  have hr : (((2 ^ 23 : Int) : ℚ)) * (2 : ℚ) ^ (-23 : Int) = 1 := by
    push_cast
    rw [zpow_neg]
    norm_num
  rw [hr]
  rw [if_neg (by norm_num)]

lemma astypeF32_some (q : ℚ) : astypeF32 (some q) = roundF32 q := rfl

lemma astypeF32_none : astypeF32 none = none := rfl

/-- With no declared sentinel, the valid values are exactly the finite
single-precision values of the window, in order. -/
lemma validPixels_none (ps : List Px) :
    validPixels none ps = ps.filterMap astypeF32 := by
  simp [validPixels, setNodataNaN, finiteVals, List.filterMap_map]

lemma validPixels_nil (nodata : Option ℚ) : validPixels nodata [] = [] := by
  cases nodata <;> rfl

/-- An empty clip window — a polygon with no raster coverage — yields the
zero-coverage row. -/
lemma processZone_ok_nil (nodata : Option ℚ) :
    processZone nodata (.ok []) = zeroRow := by
  rw [processZone_ok, validPixels_nil]
  rfl

lemma processZone_consistency (nodata : Option ℚ) (res : Except String (List Px)) :
    ((processZone nodata res).count = 0 ↔ (processZone nodata res).mean = none) ∧
    ((processZone nodata res).mean = none ↔ (processZone nodata res).min = none) ∧
    ((processZone nodata res).min = none ↔ (processZone nodata res).max = none) := by
  cases res with
  | error msg => simp [processZone, zeroRow]
  | ok ps =>
    rw [processZone_ok]
    cases h : validPixels nodata ps with
    | nil => simp [statsOf, zeroRow]
    | cons q qs => simp [statsOf]

lemma processZone_min_le_mean_le_max (nodata : Option ℚ)
    (res : Except String (List Px)) (mu mn mx : ℚ)
    (hmu : (processZone nodata res).mean = some mu)
    (hmn : (processZone nodata res).min = some mn)
    (hmx : (processZone nodata res).max = some mx) : mn ≤ mu ∧ mu ≤ mx := by
  cases res with
  | error msg => simp [processZone, zeroRow] at hmu
  | ok ps => exact statsOf_min_le_mean_le_max _ mu mn mx hmu hmn hmx

lemma roundF32_zero : roundF32 (0 : ℚ) = some 0 := by
  unfold roundF32
  rw [if_pos rfl]

/-- Head decomposition of the valid pixel list. -/
lemma validPixels_cons (nodata : Option ℚ) (p : Px) (t : List Px) :
    validPixels nodata (p :: t) =
      match astypeF32 p with
      | none => validPixels nodata t
      | some v =>
        match nodata with
        | none => v :: validPixels nodata t
        | some nd =>
          if v = nd then validPixels nodata t else v :: validPixels nodata t := by
  cases h : astypeF32 p with
  | none =>
    cases nodata with
    | none => simp [validPixels, setNodataNaN, finiteVals, h]
    | some nd => simp [validPixels, setNodataNaN, finiteVals, h]
  | some v =>
    cases nodata with
    | none => simp [validPixels, setNodataNaN, finiteVals, h]
    | some nd =>
      by_cases hv : v = nd
      · simp [validPixels, setNodataNaN, finiteVals, h, hv]
      · simp [validPixels, setNodataNaN, finiteVals, h, hv]

/-- With a declared (binary32-exact) sentinel, the fill pixels of the crop
window all equal the sentinel and are blanked on lines 53-54, so the valid
set of the filled window is exactly the valid set of the covered pixels:
the footprint property holds in the sentinel case. -/
lemma validPixels_fillWindow_some (nd : ℚ) (w : List WinPx)
    (hnd : roundF32 nd = some nd) :
    validPixels (some nd) (fillWindow (some nd) w) =
      validPixels (some nd) (coveredPx w) := by
  induction w with
  | nil => rfl
  | cons p t ih =>
    cases p with
    | covered v =>
      show validPixels (some nd) (v :: fillWindow (some nd) t) =
        validPixels (some nd) (v :: coveredPx t)
      rw [validPixels_cons, validPixels_cons, ih]
    | uncovered =>
      show validPixels (some nd) (some nd :: fillWindow (some nd) t) =
        validPixels (some nd) (coveredPx t)
      rw [validPixels_cons, astypeF32_some, hnd]
      simp [ih]

/-- With no declared sentinel, each uncovered crop-window position is
filled with 0.0, which is finite and enters the statistics: the valid-pixel
count of the filled window exceeds that of the covered pixels by exactly
the number of uncovered positions. -/
lemma validPixels_fillWindow_none (w : List WinPx) :
    (validPixels none (fillWindow none w)).length =
      (validPixels none (coveredPx w)).length + countUncovered w := by
  induction w with
  | nil => rfl
  | cons p t ih =>
    cases p with
    | covered v =>
      show (validPixels none (v :: fillWindow none t)).length =
        (validPixels none (v :: coveredPx t)).length + countUncovered (.covered v :: t)
      have hcu : countUncovered (WinPx.covered v :: t) = countUncovered t := by
        simp [countUncovered]
      rw [validPixels_cons, validPixels_cons, hcu]
      cases h : astypeF32 v with
      | none => simpa using ih
      | some x =>
        simp only [List.length_cons]
        omega
    | uncovered =>
      show (validPixels none (some 0 :: fillWindow none t)).length =
        (validPixels none (coveredPx t)).length + countUncovered (.uncovered :: t)
      have hcu : countUncovered (WinPx.uncovered :: t) = countUncovered t + 1 := by
        simp [countUncovered]
      rw [validPixels_cons, astypeF32_some, roundF32_zero, hcu]
      simp only [List.length_cons]
      omega

/-- A window whose every pixel equals a binary32-representable sentinel has
no valid pixels. -/
lemma validPixels_all_nodata (nd : ℚ) (ps : List Px)
    (hnd : roundF32 nd = some nd) (h : ∀ p ∈ ps, p = some nd) :
    validPixels (some nd) ps = [] := by
  rw [validPixels_eq_validPerSpec]
  have hall : ∀ x ∈ ps.map astypeF32, isValidPx (some nd) x = false := by
    intro x hx
    rcases List.mem_map.mp hx with ⟨p, hp, rfl⟩
    rw [h p hp, astypeF32_some, hnd]
    simp [isValidPx]
  unfold validPerSpec
  rw [List.filter_eq_nil_iff.mpr (by intro a ha; rw [hall a ha]; exact Bool.false_ne_true)]
  rfl

/-- Zone A of the 4x4 example evaluates to the zero-coverage row. -/
lemma processZone_zoneATop :
    processZone (some (-9999)) (.ok zoneATop) = zeroRow := by
  rw [processZone_ok, validPixels_all_nodata (-9999) zoneATop roundF32_neg9999]
  · rfl
  · intro p hp
    simp only [zoneATop, List.mem_cons, List.not_mem_nil, or_false] at hp
    rcases hp with h | h | h | h <;> exact h

/-- Zone B of the 4x4 example evaluates to (1.0, 1.0, 1.0, 12). -/
lemma processZone_zoneBBot :
    processZone (some (-9999)) (.ok zoneBBot) = ⟨some 1, some 1, some 1, 12⟩ := by
  rw [processZone_ok]
  have h : validPixels (some (-9999)) zoneBBot =
      [1, 1, 1, 1, 1, 1, 1, 1, 1, 1, 1, 1] := by
    have hne : ((1 : ℚ) = -9999) = False := by norm_num
    simp [validPixels, zoneBBot, astypeF32_some, roundF32_one, setNodataNaN,
      finiteVals, hne]
  rw [h]
  have hmean : listMean [1, 1, 1, 1, 1, 1, 1, 1, 1, 1, 1, 1] = 1 := by
    norm_num [listMean]
  simp [statsOf, hmean]

/-- C1: for every zone set of N features accepted by the aggregation
(raster present, zone source present and non-empty), the returned table has
exactly N rows, one per input polygon, in input order — row i is computed
from input zone i alone — and no row is omitted, regardless of per-zone
failures or zero coverage.  (The hypothesis on `idCol` is the tabular-shape
invariant of the input: an "id" column, when present, has one value per
feature.) -/
theorem C1_cardinality {C G : Type} (wgs84 : C) (reproj : C → C → G → G)
    (r : Raster C G) (zs : ZoneSet C G) (hne : zs.geoms ≠ [])
    (hid : ∀ col, zs.idCol = some col → col.length = zs.geoms.length) :
    ∃ t : OutTable C G,
      compute_zonal_mean wgs84 reproj (some r) (some zs) = .ok t ∧
      t.geoms.length = zs.geoms.length ∧
      t.ids.length = zs.geoms.length ∧
      t.means.length = zs.geoms.length ∧
      t.mins.length = zs.geoms.length ∧
      t.maxs.length = zs.geoms.length ∧
      t.counts.length = zs.geoms.length ∧
      (∀ (i : Nat) (gi : G), zs.geoms[i]? = some gi →
        t.geoms[i]? = some (reproj (zs.crs.getD wgs84) r.crs gi) ∧
        t.means[i]? =
          some (processZone r.nodata (r.mask (reproj (zs.crs.getD wgs84) r.crs gi))).mean ∧
        t.mins[i]? =
          some (processZone r.nodata (r.mask (reproj (zs.crs.getD wgs84) r.crs gi))).min ∧
        t.maxs[i]? =
          some (processZone r.nodata (r.mask (reproj (zs.crs.getD wgs84) r.crs gi))).max ∧
        t.counts[i]? =
          some (processZone r.nodata (r.mask (reproj (zs.crs.getD wgs84) r.crs gi))).count) := by
  refine ⟨_, compute_zonal_mean_ok wgs84 reproj r zs hne, ?_, ?_, ?_, ?_, ?_, ?_, ?_⟩
  · simp
  · cases hic : zs.idCol with
    | none => simp [hic, synthIds_length]
    | some col => simp [hic, hid col hic]
  · simp [statsCol_length]
  · simp [statsCol_length]
  · simp [statsCol_length]
  · simp [statsCol_length]
  · intro i gi hgi
    refine ⟨?_, ?_, ?_, ?_, ?_⟩ <;>
      simp [statsCol, List.getElem?_map, hgi]

/-- Witness for C1: a concrete run of two zones against a raster whose clip
rejects the first (degenerate) geometry still produces a two-row table. -/
theorem C1_cardinality_witness :
    ∃ t : OutTable String (List Px),
      compute_zonal_mean epsg4326 idReproj (some rasterFail) (some zonesF) = .ok t ∧
      t.means.length = 2 ∧ t.counts.length = 2 := by
  obtain ⟨t, h1, _, _, h4, _, _, h7, _⟩ :=
    C1_cardinality epsg4326 idReproj rasterFail zonesF (by simp [zonesF])
      (fun col h => by simp [zonesF] at h)
  exact ⟨t, h1, by simpa [zonesF] using h4, by simpa [zonesF] using h7⟩

/-- C2: the aggregation raises exactly three fatal errors — missing raster
path, missing zone-source path, empty zone source — each before any zone is
processed and with no partial result (the error carries no table); in every
other case it returns a table. -/
theorem C2_fatal {C G : Type} (wgs84 : C) (reproj : C → C → G → G) :
    (∀ v? : Option (ZoneSet C G),
      compute_zonal_mean wgs84 reproj none v? = .error .rasterNotFound) ∧
    (∀ r : Raster C G,
      compute_zonal_mean wgs84 reproj (some r) none = .error .vectorNotFound) ∧
    (∀ (r : Raster C G) (zs : ZoneSet C G), zs.geoms = [] →
      compute_zonal_mean wgs84 reproj (some r) (some zs) = .error .noFeatures) ∧
    (∀ (r : Raster C G) (zs : ZoneSet C G), zs.geoms ≠ [] →
      ∃ t, compute_zonal_mean wgs84 reproj (some r) (some zs) = .ok t) := by
  refine ⟨fun v? => rfl, fun r => rfl, fun r zs h => ?_,
    fun r zs h => ⟨_, compute_zonal_mean_ok wgs84 reproj r zs h⟩⟩
  simp [compute_zonal_mean, h]

/-- Witness for C2: the three fatal cases and one accepted case, concretely. -/
theorem C2_fatal_witness :
    compute_zonal_mean epsg4326 idReproj none (some zonesPair) = .error .rasterNotFound ∧
    compute_zonal_mean epsg4326 idReproj (some rasterNoNd) none = .error .vectorNotFound ∧
    compute_zonal_mean epsg4326 idReproj (some rasterNoNd) (some zonesEmpty) =
      .error .noFeatures ∧
    ∃ t, compute_zonal_mean epsg4326 idReproj (some rasterNoNd) (some zonesPair) = .ok t :=
  ⟨(C2_fatal epsg4326 idReproj).1 _, (C2_fatal epsg4326 idReproj).2.1 _,
   (C2_fatal epsg4326 idReproj).2.2.1 _ _ rfl,
   (C2_fatal epsg4326 idReproj).2.2.2 _ _ (by simp [zonesPair])⟩

/-- C7: every zone geometry is reprojected into the raster's CRS before the
per-zone loop, and the raster is never reprojected or resampled (it enters
only through its metadata and clip operation), so the returned geometries —
and the returned table's CRS — are the raster's; a zone set declaring no
CRS is first assumed to be geographic WGS84 without validation. -/
theorem C7_reprojection {C G : Type} (wgs84 : C) (reproj : C → C → G → G)
    (r : Raster C G) (zs : ZoneSet C G) (hne : zs.geoms ≠ []) :
    ∃ t : OutTable C G,
      compute_zonal_mean wgs84 reproj (some r) (some zs) = .ok t ∧
      t.crs = r.crs ∧
      t.geoms = zs.geoms.map (reproj (zs.crs.getD wgs84) r.crs) ∧
      (zs.crs = none → t.geoms = zs.geoms.map (reproj wgs84 r.crs)) := by
  refine ⟨_, compute_zonal_mean_ok wgs84 reproj r zs hne, rfl, rfl, ?_⟩
  intro h
  simp [h, Option.getD]

/-- Witness for C7: a concrete run with a CRS-less zone set. -/
theorem C7_reprojection_witness :
    ∃ t : OutTable String (List Px),
      compute_zonal_mean epsg4326 idReproj (some rasterNoNd) (some zonesNoCrs) = .ok t ∧
      t.crs = rasterNoNd.crs ∧
      t.geoms = zonesNoCrs.geoms.map (idReproj (zonesNoCrs.crs.getD epsg4326) rasterNoNd.crs) ∧
      (zonesNoCrs.crs = none →
        t.geoms = zonesNoCrs.geoms.map (idReproj epsg4326 rasterNoNd.crs)) :=
  C7_reprojection epsg4326 idReproj rasterNoNd zonesNoCrs (by simp [zonesNoCrs])

/-- C6 counterexample: a zone set supplying its own "id" column with the
integer value 7 is returned with that integer untouched, so the output
identifier values are not always strings. -/
theorem C6_counterexample :
    ∃ t : OutTable String (List Px),
      compute_zonal_mean epsg4326 idReproj (some rasterNoNd) (some zonesIntId) = .ok t ∧
      t.ids = [PyVal.int 7] ∧ t.ids.all PyVal.isStr = false := by
  refine ⟨_, compute_zonal_mean_ok epsg4326 idReproj rasterNoNd zonesIntId
    (by simp [zonesIntId]), ?_, ?_⟩
  · simp [zonesIntId]
  · simp [zonesIntId, PyVal.isStr]

/-- C6 amended: the identifier column is always present with one value per
row; when the input lacks an "id" column the output identifiers are the
stringified zero-based positions, in order (and hence all strings); when
the input supplies its own "id" column it is passed through unchanged, and
its values need not be strings. -/
theorem C6_identifier_amended {C G : Type} (wgs84 : C) (reproj : C → C → G → G)
    (r : Raster C G) (zs : ZoneSet C G) (hne : zs.geoms ≠ [])
    (hid : ∀ col, zs.idCol = some col → col.length = zs.geoms.length) :
    ∃ t : OutTable C G,
      compute_zonal_mean wgs84 reproj (some r) (some zs) = .ok t ∧
      t.ids.length = zs.geoms.length ∧
      (zs.idCol = none →
        t.ids = (List.range zs.geoms.length).map (fun i => PyVal.str (toString i)) ∧
        t.ids.all PyVal.isStr = true ∧
        (∀ i : Nat, i < zs.geoms.length → t.ids[i]? = some (PyVal.str (toString i)))) ∧
      (∀ col, zs.idCol = some col → t.ids = col) := by
  refine ⟨_, compute_zonal_mean_ok wgs84 reproj r zs hne, ?_, ?_, ?_⟩
  · cases hic : zs.idCol with
    | none => simp [hic, synthIds_length]
    | some col => simp [hic, hid col hic]
  · intro h
    refine ⟨by simp [h, synthIds], ?_, ?_⟩
    · simp only [h, Option.getD_none]
      exact synthIds_all_str _
    · intro i hi
      simp only [h, Option.getD_none]
      exact synthIds_getElem? _ i hi
  · intro col h
    simp [h]

/-- Witness for C6's amended claim: a concrete run with no "id" column
yields the identifiers "0", "1". -/
theorem C6_identifier_amended_witness :
    ∃ t : OutTable String (List Px),
      compute_zonal_mean epsg4326 idReproj (some rasterNoNd) (some zonesPair) = .ok t ∧
      t.ids = [PyVal.str "0", PyVal.str "1"] := by
  obtain ⟨t, h1, _, h3, _⟩ :=
    C6_identifier_amended epsg4326 idReproj rasterNoNd zonesPair (by simp [zonesPair])
      (fun col h => by simp [zonesPair] at h)
  refine ⟨t, h1, ?_⟩
  have := (h3 rfl).1
  simpa [zonesPair] using this

/-- C3: when exactly one zone's clip step fails (a degenerate geometry the
clip operation rejects), the run still returns all N rows: the failing
zone's row is the zero-coverage outcome (NaN, NaN, NaN, 0), every other
zone's row equals its standalone single-zone aggregation, and no per-zone
exception escapes (the run returns `.ok`; the logged warning is a side
effect outside the returned table). -/
theorem C3_isolation {C G : Type} (wgs84 : C) (reproj : C → C → G → G)
    (r : Raster C G) (zs : ZoneSet C G)
    (k : Nat) (gk : G) (hk : zs.geoms[k]? = some gk) (msg : String)
    (hfail : r.mask (reproj (zs.crs.getD wgs84) r.crs gk) = .error msg)
    (_hok : ∀ (j : Nat) (gj : G), j ≠ k → zs.geoms[j]? = some gj →
      (r.mask (reproj (zs.crs.getD wgs84) r.crs gj)).isOk = true) :
    ∃ t : OutTable C G,
      compute_zonal_mean wgs84 reproj (some r) (some zs) = .ok t ∧
      t.counts.length = zs.geoms.length ∧
      t.means[k]? = some none ∧ t.mins[k]? = some none ∧
      t.maxs[k]? = some none ∧ t.counts[k]? = some 0 ∧
      (∀ (j : Nat) (gj : G), j ≠ k → zs.geoms[j]? = some gj →
        ∃ tj : OutTable C G,
          compute_zonal_mean wgs84 reproj (some r) (some ⟨zs.crs, none, [gj]⟩) = .ok tj ∧
          t.means[j]? = tj.means[0]? ∧ t.mins[j]? = tj.mins[0]? ∧
          t.maxs[j]? = tj.maxs[0]? ∧ t.counts[j]? = tj.counts[0]?) := by
  have hne : zs.geoms ≠ [] := by
    intro h
    rw [h] at hk
    simp at hk
  refine ⟨_, compute_zonal_mean_ok wgs84 reproj r zs hne, ?_, ?_, ?_, ?_, ?_, ?_⟩
  · simp [statsCol_length]
  · simp [statsCol, List.getElem?_map, hk, hfail, processZone, zeroRow]
  · simp [statsCol, List.getElem?_map, hk, hfail, processZone, zeroRow]
  · simp [statsCol, List.getElem?_map, hk, hfail, processZone, zeroRow]
  · simp [statsCol, List.getElem?_map, hk, hfail, processZone, zeroRow]
  · intro j gj hj hgj
    refine ⟨_, compute_zonal_mean_ok wgs84 reproj r ⟨zs.crs, none, [gj]⟩ (by simp), ?_, ?_, ?_, ?_⟩ <;>
      simp [statsCol, List.getElem?_map, hgj]

/-- Witness for C3: the two-zone run whose first geometry is rejected by
the clip still yields a two-row table with a zero-coverage first row. -/
theorem C3_isolation_witness :
    ∃ t : OutTable String (List Px),
      compute_zonal_mean epsg4326 idReproj (some rasterFail) (some zonesF) = .ok t ∧
      t.counts.length = 2 ∧ t.means[0]? = some none ∧ t.counts[0]? = some 0 := by
  obtain ⟨t, h1, h2, h3, _, _, h6, _⟩ :=
    C3_isolation epsg4326 idReproj rasterFail zonesF 0 [] (by simp [zonesF])
      "Invalid geometry" rfl
      (by
        intro j gj hj hget
        match j with
        | 0 => exact absurd rfl hj
        | 1 =>
          simp [zonesF] at hget
          subst hget
          rfl
        | j + 2 => simp [zonesF] at hget)
  exact ⟨t, h1, by simpa [zonesF] using h2, h3, h6⟩

/-- C8: in every returned row the four statistics fields are mutually
consistent — the count (a natural number, hence non-negative) is 0 exactly
when mean, min and max are all NaN, so the four fields are absent
simultaneously; in particular a zone whose clip returns an empty window
(e.g. a polygon entirely outside the raster extent) gets the row
(NaN, NaN, NaN, 0).  This covers genuine zero coverage, all-nodata coverage
and recovered per-zone failures alike, since every row is a `processZone`
outcome. -/
theorem C8_consistency {C G : Type} (wgs84 : C) (reproj : C → C → G → G)
    (r : Raster C G) (zs : ZoneSet C G) (hne : zs.geoms ≠ []) :
    ∃ t : OutTable C G,
      compute_zonal_mean wgs84 reproj (some r) (some zs) = .ok t ∧
      t.counts.length = zs.geoms.length ∧
      (∀ i : Nat, i < zs.geoms.length →
        ((t.counts[i]? = some 0) ↔ (t.means[i]? = some none)) ∧
        ((t.means[i]? = some none) ↔ (t.mins[i]? = some none)) ∧
        ((t.mins[i]? = some none) ↔ (t.maxs[i]? = some none))) ∧
      (∀ (i : Nat) (gi : G), zs.geoms[i]? = some gi →
        r.mask (reproj (zs.crs.getD wgs84) r.crs gi) = .ok [] →
        t.counts[i]? = some 0 ∧ t.means[i]? = some none ∧
        t.mins[i]? = some none ∧ t.maxs[i]? = some none) := by
  refine ⟨_, compute_zonal_mean_ok wgs84 reproj r zs hne, ?_, ?_, ?_⟩
  · simp [statsCol_length]
  · intro i hi
    have hgi : zs.geoms[i]? = some zs.geoms[i] := List.getElem?_eq_getElem hi
    obtain ⟨hc1, hc2, hc3⟩ :=
      processZone_consistency r.nodata
        (r.mask (reproj (zs.crs.getD wgs84) r.crs zs.geoms[i]))
    refine ⟨?_, ?_, ?_⟩ <;> simp [statsCol, List.getElem?_map, hgi, hc1, hc2, hc3]
  · intro i gi hgi hmask
    refine ⟨?_, ?_, ?_, ?_⟩ <;>
      simp [statsCol, List.getElem?_map, hgi, hmask, processZone_ok_nil, zeroRow]

/-- Witness for C8: the consistency statement instantiated on a concrete
run in which one zone's clip window is empty. -/
theorem C8_consistency_witness :
    ∃ t : OutTable String (List Px),
      compute_zonal_mean epsg4326 idReproj (some rasterNoNd) (some zonesNoCrs) = .ok t ∧
      t.counts.length = zonesNoCrs.geoms.length ∧
      (∀ i : Nat, i < zonesNoCrs.geoms.length →
        ((t.counts[i]? = some 0) ↔ (t.means[i]? = some none)) ∧
        ((t.means[i]? = some none) ↔ (t.mins[i]? = some none)) ∧
        ((t.mins[i]? = some none) ↔ (t.maxs[i]? = some none))) ∧
      (∀ (i : Nat) (gi : List Px), zonesNoCrs.geoms[i]? = some gi →
        rasterNoNd.mask (idReproj (zonesNoCrs.crs.getD epsg4326) rasterNoNd.crs gi) = .ok [] →
        t.counts[i]? = some 0 ∧ t.means[i]? = some none ∧
        t.mins[i]? = some none ∧ t.maxs[i]? = some none) :=
  C8_consistency epsg4326 idReproj rasterNoNd zonesNoCrs (by simp [zonesNoCrs])

/-- C10: in every returned row with positive count the statistics are
ordered min ≤ mean ≤ max, and the count never exceeds the number of pixels
of the zone's clipped window. -/
theorem C10_order {C G : Type} (wgs84 : C) (reproj : C → C → G → G)
    (r : Raster C G) (zs : ZoneSet C G) (hne : zs.geoms ≠ []) :
    ∃ t : OutTable C G,
      compute_zonal_mean wgs84 reproj (some r) (some zs) = .ok t ∧
      (∀ (i : Nat) (c : Nat) (mu mn mx : ℚ),
        t.counts[i]? = some c → 0 < c →
        t.means[i]? = some (some mu) → t.mins[i]? = some (some mn) →
        t.maxs[i]? = some (some mx) → mn ≤ mu ∧ mu ≤ mx) ∧
      (∀ (i : Nat) (gi : G) (ps : List Px) (c : Nat), zs.geoms[i]? = some gi →
        r.mask (reproj (zs.crs.getD wgs84) r.crs gi) = .ok ps →
        t.counts[i]? = some c → c ≤ ps.length) := by
  refine ⟨_, compute_zonal_mean_ok wgs84 reproj r zs hne, ?_, ?_⟩
  · intro i c mu mn mx hc hcpos hmu hmn hmx
    cases hgi : zs.geoms[i]? with
    | none => simp [statsCol, List.getElem?_map, hgi] at hmu
    | some gi =>
      simp [statsCol, List.getElem?_map, hgi] at hmu hmn hmx
      exact processZone_min_le_mean_le_max _ _ mu mn mx hmu hmn hmx
  · intro i gi ps c hgi hmask hc
    simp [statsCol, List.getElem?_map, hgi, hmask] at hc
    subst hc
    exact processZone_count_le r.nodata ps

/-- Witness for C10: the ordering statement instantiated on a concrete
two-zone run. -/
theorem C10_order_witness :
    ∃ t : OutTable String (List Px),
      compute_zonal_mean epsg4326 idReproj (some rasterNoNd) (some zonesPair) = .ok t ∧
      (∀ (i : Nat) (c : Nat) (mu mn mx : ℚ),
        t.counts[i]? = some c → 0 < c →
        t.means[i]? = some (some mu) → t.mins[i]? = some (some mn) →
        t.maxs[i]? = some (some mx) → mn ≤ mu ∧ mu ≤ mx) ∧
      (∀ (i : Nat) (gi : List Px) (ps : List Px) (c : Nat),
        zonesPair.geoms[i]? = some gi →
        rasterNoNd.mask (idReproj (zonesPair.crs.getD epsg4326) rasterNoNd.crs gi) = .ok ps →
        t.counts[i]? = some c → c ≤ ps.length) :=
  C10_order epsg4326 idReproj rasterNoNd zonesPair (by simp [zonesPair])

/-- C4: with a declared nodata sentinel — over windows of single-precision
values, as delivered for the pipeline's float32 NDVI rasters, which the
conversion-exactness hypotheses encode — a zone covering only nodata pixels
yields (NaN, NaN, NaN, 0); a zone covering a mix yields statistics computed
over exactly the valid subset, with count the number of valid pixels (not
the total covered); and the spec's 4x4 end-to-end example evaluates to
zone A = (NaN, NaN, NaN, 0), zone B = (1.0, 1.0, 1.0, 12). -/
theorem C4_nodata_exclusion :
    (∀ (nd : ℚ) (ps : List Px), roundF32 nd = some nd →
      (∀ p ∈ ps, p = some nd) →
      processZone (some nd) (.ok ps) = zeroRow) ∧
    (∀ (nd : ℚ) (ps : List Px), (∀ p ∈ ps, astypeF32 p = p) →
      processZone (some nd) (.ok ps) = statsOf (validPerSpec (some nd) ps) ∧
      (processZone (some nd) (.ok ps)).count = (validPerSpec (some nd) ps).length) ∧
    (∃ t : OutTable String (List Px),
      compute_zonal_mean epsg4326 idReproj (some raster4) (some zonesAB) = .ok t ∧
      t.means = [none, some 1] ∧ t.mins = [none, some 1] ∧
      t.maxs = [none, some 1] ∧ t.counts = [0, 12]) := by
  refine ⟨?_, ?_, ?_⟩
  · intro nd ps hnd h
    rw [processZone_ok, validPixels_all_nodata nd ps hnd h]
    rfl
  · intro nd ps hrep
    constructor
    · rw [processZone_ok, validPixels_eq_validPerSpec_of_exact _ _ hrep]
    · rw [processZone_ok, statsOf_count, validPixels_eq_validPerSpec_of_exact _ _ hrep]
  · refine ⟨_, compute_zonal_mean_ok epsg4326 idReproj raster4 zonesAB
      (by simp [zonesAB]), ?_, ?_, ?_, ?_⟩ <;>
      simp [statsCol, zonesAB, raster4, okMask, idReproj,
        processZone_zoneATop, processZone_zoneBBot, zeroRow]

/-- Witness for C4: the all-nodata case applied at the concrete sentinel
-9999 and the all-nodata window of zone A. -/
theorem C4_nodata_exclusion_witness :
    processZone (some (-9999)) (.ok zoneATop) = zeroRow :=
  C4_nodata_exclusion.1 (-9999) zoneATop roundF32_neg9999
    (by
      intro p hp
      simp only [zoneATop, List.mem_cons, List.not_mem_nil, or_false] at hp
      rcases hp with h | h | h | h <;> exact h)

/-- C5 counterexample: the statistics are not computed over only the pixels
geometrically covered by the polygon.  With no declared nodata sentinel the
clip's fill step turns every crop-window position outside the footprint
into the finite value 0.0, which passes the np.isfinite filter of line 55:
for a window whose polygon covers exactly one pixel of value 1.0 with three
uncovered positions, the run reports count 4 (not 1), min 0 and mean 1/4 —
the value 0 is in the valid set though no covered pixel carries it. -/
theorem C5_counterexample :
    ∃ t : OutTable String (List Px),
      compute_zonal_mean epsg4326 idReproj (some rasterFillNoNd) (some zonesOneCov) = .ok t ∧
      coveredPx winPart = [some 1] ∧
      fillWindow none winPart = [some 1, some 0, some 0, some 0] ∧
      t.counts = [4] ∧ t.mins = [some 0] ∧ t.means = [some (1 / 4)] ∧
      (0 : ℚ) ∈ validPixels none (fillWindow none winPart) ∧
      ¬ (some (0 : ℚ) : Px) ∈ coveredPx winPart := by
  have hv : validPixels none (fillWindow none winPart) = [1, 0, 0, 0] := by
    rw [validPixels_none]
    simp [fillWindow, winPart, astypeF32_some, roundF32_one, roundF32_zero]
  have hpz : processZone none (.ok (fillWindow none winPart)) =
      ⟨some (1 / 4), some 0, some 1, 4⟩ := by
    rw [processZone_ok, hv]
    norm_num [statsOf, listMean, min_def, max_def]
  refine ⟨_, compute_zonal_mean_ok epsg4326 idReproj rasterFillNoNd zonesOneCov
    (by simp [zonesOneCov]), rfl, rfl, ?_, ?_, ?_, ?_, ?_⟩
  · simp [statsCol, zonesOneCov, rasterFillNoNd, idReproj, hpz]
  · simp [statsCol, zonesOneCov, rasterFillNoNd, idReproj, hpz]
  · simp [statsCol, zonesOneCov, rasterFillNoNd, idReproj, hpz]
  · rw [hv]
    simp
  · rw [show coveredPx winPart = [some 1] from rfl]
    norm_num

/-- C5 amended: the per-zone statistics are computed over the filled crop
window the clip delivers, not over the bare footprint.  With a declared
(binary32-exact) sentinel the fill pixels equal the sentinel and are
blanked on lines 53-54, so only covered pixels contribute and the footprint
property holds; with no declared sentinel each uncovered window position is
filled with 0.0, which is finite and enters the statistics — the count
exceeds the covered count by exactly the number of uncovered positions.
On the window as delivered, with no sentinel a pixel is excluded exactly
when its single-precision value is non-finite. -/
theorem C5_amended_footprint {C G : Type} (wgs84 : C) (reproj : C → C → G → G)
    (r : Raster C G) (zs : ZoneSet C G) (hne : zs.geoms ≠ []) :
    ∃ t : OutTable C G,
      compute_zonal_mean wgs84 reproj (some r) (some zs) = .ok t ∧
      (∀ (i : Nat) (gi : G) (w : List WinPx), zs.geoms[i]? = some gi →
        r.mask (reproj (zs.crs.getD wgs84) r.crs gi) = .ok (fillWindow r.nodata w) →
        (∀ nd : ℚ, r.nodata = some nd → roundF32 nd = some nd →
          t.means[i]? = some (statsOf (validPixels (some nd) (coveredPx w))).mean ∧
          t.mins[i]? = some (statsOf (validPixels (some nd) (coveredPx w))).min ∧
          t.maxs[i]? = some (statsOf (validPixels (some nd) (coveredPx w))).max ∧
          t.counts[i]? = some (validPixels (some nd) (coveredPx w)).length) ∧
        (r.nodata = none →
          t.counts[i]? =
            some ((validPixels none (coveredPx w)).length + countUncovered w))) ∧
      (∀ ps : List Px, validPixels none ps = ps.filterMap astypeF32) := by
  refine ⟨_, compute_zonal_mean_ok wgs84 reproj r zs hne, ?_, validPixels_none⟩
  intro i gi w hgi hmask
  constructor
  · intro nd hnd hrnd
    rw [hnd] at hmask
    have key := validPixels_fillWindow_some nd w hrnd
    refine ⟨?_, ?_, ?_, ?_⟩ <;>
      simp [statsCol, List.getElem?_map, hgi, hmask, hnd, processZone_ok, key,
        statsOf_count]
  · intro hnone
    rw [hnone] at hmask
    have key := validPixels_fillWindow_none w
    simp [statsCol, List.getElem?_map, hgi, hmask, hnone, processZone_ok,
      statsOf_count, key]

/-- Witness for C5's amended claim: the statement instantiated on a
concrete run over a sentinel-carrying raster whose clip delivers a filled
window. -/
theorem C5_amended_footprint_witness :
    ∃ t : OutTable String (List Px),
      compute_zonal_mean epsg4326 idReproj (some rasterFillNd) (some zonesOneCov) = .ok t ∧
      (∀ (i : Nat) (gi : List Px) (w : List WinPx), zonesOneCov.geoms[i]? = some gi →
        rasterFillNd.mask (idReproj (zonesOneCov.crs.getD epsg4326) rasterFillNd.crs gi) =
          .ok (fillWindow rasterFillNd.nodata w) →
        (∀ nd : ℚ, rasterFillNd.nodata = some nd → roundF32 nd = some nd →
          t.means[i]? = some (statsOf (validPixels (some nd) (coveredPx w))).mean ∧
          t.mins[i]? = some (statsOf (validPixels (some nd) (coveredPx w))).min ∧
          t.maxs[i]? = some (statsOf (validPixels (some nd) (coveredPx w))).max ∧
          t.counts[i]? = some (validPixels (some nd) (coveredPx w)).length) ∧
        (rasterFillNd.nodata = none →
          t.counts[i]? =
            some ((validPixels none (coveredPx w)).length + countUncovered w))) ∧
      (∀ ps : List Px, validPixels none ps = ps.filterMap astypeF32) :=
  C5_amended_footprint epsg4326 idReproj rasterFillNd zonesOneCov (by simp [zonesOneCov])

/-- C9 counterexample: the statistics are not computed in the raster's
native floating-point precision.  For a raster of native double precision
whose single covered pixel is `1 + 2 ^ (-30)` (exactly representable in
binary64 but not in binary32), the run's mean is 1 — the pixel was narrowed
to float32 by astype("float32") before aggregation — while the
native-precision mean is `1 + 2 ^ (-30)`. -/
theorem C9_counterexample :
    ∃ t : OutTable String (List Px),
      compute_zonal_mean epsg4326 idReproj (some rasterFine) (some zonesFine) = .ok t ∧
      t.means = [some 1] ∧
      (processZoneNative none (.ok [some pxFine])).mean = some pxFine ∧
      pxFine = 1 + (2 : ℚ) ^ (-30 : Int) ∧
      (1 : ℚ) ≠ pxFine := by
  have hpz : processZone none (.ok [some pxFine]) = ⟨some 1, some 1, some 1, 1⟩ := by
    rw [processZone_ok]
    have h : validPixels none [some pxFine] = [1] := by
      rw [validPixels_none]
      simp [astypeF32_some, roundF32_one_add_small]
    rw [h]
    norm_num [statsOf, listMean]
  refine ⟨_, compute_zonal_mean_ok epsg4326 idReproj rasterFine zonesFine
    (by simp [zonesFine]), ?_, ?_, rfl, ?_⟩
  · simp [statsCol, zonesFine, rasterFine, idReproj, hpz]
  · simp [processZoneNative, setNodataNaN, finiteVals, statsOf, listMean]
  · norm_num [pxFine]

/-- C9 amended: mean, min and max are computed over the single-precision
values of the covered pixels — every pixel is converted to float32 before
aggregation, whatever the raster's native precision — and a pixel is valid
exactly when its converted value is finite (not NaN, not an infinity) and
not equal to the declared nodata sentinel. -/
theorem C9_amended_precision (nodata : Option ℚ) (ps : List Px) :
    processZone nodata (.ok ps) = statsOf (validPerSpec nodata (ps.map astypeF32)) ∧
    (processZone nodata (.ok ps)).count =
      (validPerSpec nodata (ps.map astypeF32)).length := by
  constructor
  · rw [processZone_ok, validPixels_eq_validPerSpec]
  · rw [processZone_ok, statsOf_count, validPixels_eq_validPerSpec]

end GeoFarm
